import Mathlib

/-!
Verification of the result-aggregation / accuracy-scoring core of the
repository (`code/compare_results.py`): number extraction from response
text, per-test accuracy aggregation, and markdown report rendering.

Texts are modelled as `List Char` (lower-cased before matching, as the
source lower-cases via `text.lower()`).  Each of the nine regular
expressions of `extract_number` is embedded as an executable matcher.
For these particular patterns, greedy maximal-munch matching coincides
with full backtracking regex semantics, because in each pattern the
token following `\d+` (resp. `\s*`, `[:\s]+`) can never match a
character of the class just consumed: after a maximal run of digits the
next character is not a digit, so shortening the run would place a digit
where only a letter, separator or end-anchor may stand.  Leftmost-match
semantics of `re.search` is embedded by trying every start position from
the left (`searchLeft`).
-/

/-- ASCII decimal digit: the model of the regex class `\d` (the inputs are
lower-cased ASCII-ish response texts). -/
def isDigitChar (c : Char) : Bool := '0' ≤ c && c ≤ '9'

/-- The regex whitespace class `\s` (ASCII part). -/
def isSpaceChar (c : Char) : Bool :=
  c = ' ' || c = '\t' || c = '\n' || c = '\r' || c = '\x0b' || c = '\x0c'

/-- Separator class `[:\s]` used by the `count`/`total` patterns. -/
def isSepChar (c : Char) : Bool := c = ':' || isSpaceChar c

/-- Numeric value of a digit character. -/
def digitVal (c : Char) : Int := (c.toNat : Int) - ('0'.toNat : Int)

/-- Value of `int(...)` on a digit string: the captured group `(\d+)`. -/
def parseDigits (ds : List Char) : Int := ds.foldl (fun acc c => acc * 10 + digitVal c) 0

/-- Match the pattern `(\d+)\s*WORD...` at the current position: a nonempty
digit run, optional whitespace, then the literal `word`.  The optional
trailing characters of the source patterns (`s?` in `fingers?`, `coins?`,
`pieces?`, `items?`) do not affect matching success or the captured group,
so only the mandatory stem is checked. -/
def matchNumWordAt (word : List Char) (cs : List Char) : Option Int :=
  let ds := cs.takeWhile isDigitChar
  if ds.isEmpty then none
  else
    let rest := (cs.drop ds.length).dropWhile isSpaceChar
    if word.isPrefixOf rest then some (parseDigits ds) else none

/-- Match the pattern `KEY[:\s]+(\d+)` at the current position. -/
def matchKeyNumAt (key : List Char) (cs : List Char) : Option Int :=
  if key.isPrefixOf cs then
    let rest := cs.drop key.length
    let sep := rest.takeWhile isSepChar
    if sep.isEmpty then none
    else
      let ds := (rest.drop sep.length).takeWhile isDigitChar
      if ds.isEmpty then none else some (parseDigits ds)
  else none

/-- Match the pattern `there (?:are|is) (\d+)` at the current position. -/
def matchThereAt (cs : List Char) : Option Int :=
  if ("there ".data).isPrefixOf cs then
    let rest := cs.drop 6
    let afterVerb :=
      if ("are ".data).isPrefixOf rest then some (rest.drop 4)
      else if ("is ".data).isPrefixOf rest then some (rest.drop 3)
      else none
    match afterVerb with
    | none => none
    | some r =>
      let ds := r.takeWhile isDigitChar
      if ds.isEmpty then none else some (parseDigits ds)
  else none

/-- Match the anchored pattern `^(\d+)$` against the whole text.  Python's
`$` (without `re.MULTILINE`) matches at the end of the string or just
before a single trailing newline, so `"5\n"` also matches. -/
def matchAnchored (cs : List Char) : Option Int :=
  let ds := cs.takeWhile isDigitChar
  if ds.isEmpty then none
  else if ds.length = cs.length then some (parseDigits ds)
  else if ds.length + 1 = cs.length ∧ cs.getLast? = some '\n' then some (parseDigits ds)
  else none

/-- Model of `re.search` for an unanchored pattern: try the positional matcher at
every start position from the left, first success wins. -/
def searchLeft (f : List Char → Option Int) : List Char → Option Int
  | [] => f []
  | c :: cs =>
    match f (c :: cs) with
    | some n => some n
    | none => searchLeft f cs

/-- The pattern that matches nothing, used as the out-of-range default when
indexing the pattern list. -/
def defaultPat : List Char → Option Int := fun _ => none

/-- The fixed, ordered pattern list of `extract_number`, in declaration
order. -/
def patterns : List (List Char → Option Int) :=
  [ searchLeft (matchNumWordAt "finger".data)
  , searchLeft (matchNumWordAt "coin".data)
  , searchLeft (matchNumWordAt "rebar".data)
  , searchLeft (matchNumWordAt "piece".data)
  , searchLeft (matchNumWordAt "item".data)
  , searchLeft (matchKeyNumAt "count".data)
  , searchLeft (matchKeyNumAt "total".data)
  , searchLeft matchThereAt
  , matchAnchored ]

/-- First-match-wins over the ordered pattern list (the `for pattern in
patterns: ... return` loop). -/
def firstSome : List (List Char → Option Int) → List Char → Option Int
  | [], _ => none
  | f :: fs, cs =>
    match f cs with
    | some n => some n
    | none => firstSome fs cs

/-- Lower-casing, `text.lower()`, applied before matching. -/
def lowerStr (s : String) : List Char := s.data.map Char.toLower

/-- The function `extract_number`: try each pattern in order on the lower-cased text and
return the first captured integer, `none` when no pattern matches. -/
def extract_number (text : String) : Option Int := firstSome patterns (lowerStr text)

/-- One per-image observation, as serialized by the experiment runner and
read back by `analyze_results` / `generate_report`.  Missing optional JSON
keys are modelled by the defaults `.get` would supply: empty text, `none`
ground truth, empty code block list, zero generated images. -/
structure QueryResult where
  image : String
  status : String
  response_text : String
  ground_truth : Option Int
  code_executed : List String
  images_generated : Nat
  deriving DecidableEq

/-- One record of the persisted results list: all results of one named test
under one mode (`code_execution` true = CODE_ON). -/
structure TestRun where
  test_name : String
  code_execution : Bool
  results : List QueryResult
  deriving DecidableEq

/-- The per-test comparison record built by `analyze_results`. -/
structure ComparisonStat where
  total_images : Nat
  code_on_accuracy : Option ℚ
  code_off_accuracy : Option ℚ
  code_blocks_executed : Nat
  images_annotated : Nat
  has_ground_truth : Bool
  deriving DecidableEq

/-- The accuracy loop of `analyze_results`: walk the zipped pairs of
CODE_ON and CODE_OFF results, and accumulate
`(total_with_gt, on_correct, off_correct)`.  Ground truth is read from the
CODE_ON member of the pair only; a pair counts exactly when it is present. -/
def gtLoop : List (QueryResult × QueryResult) → Nat × Nat × Nat → Nat × Nat × Nat
  | [], acc => acc
  | p :: ps, (tot, onc, offc) =>
    match p.1.ground_truth with
    | none => gtLoop ps (tot, onc, offc)
    | some gt =>
      gtLoop ps
        (tot + 1,
         onc + (if extract_number p.1.response_text = some gt then 1 else 0),
         offc + (if extract_number p.2.response_text = some gt then 1 else 0))

/-- The three accuracy counters for one test, computed over
`zip(code_on, code_off)` starting from zero. -/
def accTriple (code_on code_off : List QueryResult) : Nat × Nat × Nat :=
  gtLoop (code_on.zip code_off) (0, 0, 0)

/-- The per-test statistics block of `analyze_results`. -/
def compareStats (code_on code_off : List QueryResult) : ComparisonStat :=
  let t := accTriple code_on code_off
  { total_images := code_on.length
    code_on_accuracy := if 0 < t.1 then some ((t.2.1 : ℚ) / (t.1 : ℚ)) else none
    code_off_accuracy := if 0 < t.1 then some ((t.2.2 : ℚ) / (t.1 : ℚ)) else none
    code_blocks_executed := code_on.countP (fun r => !r.code_executed.isEmpty)
    images_annotated := (code_on.map (fun r => r.images_generated)).sum
    has_ground_truth := decide (0 < t.1) }

/-- Write a mode's result list into a grouping entry, replacing whatever the
mode slot held (`by_test[test_name][mode] = result["results"]`). -/
def setMode (entry : List QueryResult × List QueryResult) (mode : Bool)
    (rs : List QueryResult) : List QueryResult × List QueryResult :=
  if mode then (rs, entry.2) else (entry.1, rs)

/-- One step of the grouping loop of `analyze_results`: create the test's
entry on first sight (both mode slots empty), then assign the record's
result list into its mode slot. -/
def insertRun (acc : List (String × (List QueryResult × List QueryResult)))
    (r : TestRun) : List (String × (List QueryResult × List QueryResult)) :=
  if acc.any (fun e => e.1 == r.test_name) then
    acc.map (fun e => if e.1 == r.test_name then (e.1, setMode e.2 r.code_execution r.results) else e)
  else
    acc ++ [(r.test_name, setMode ([], []) r.code_execution r.results)]

/-- The grouping loop: an insertion-ordered association list playing the
role of the Python dict `by_test`. -/
def groupByTest (results : List TestRun) :
    List (String × (List QueryResult × List QueryResult)) :=
  results.foldl insertRun []

/-- The function `analyze_results`: group the records by test name and compute one
`ComparisonStat` per test, in first-occurrence order. -/
def analyze_results (results : List TestRun) : List (String × ComparisonStat) :=
  (groupByTest results).map (fun e => (e.1, compareStats e.2.1 e.2.2))

/-- Python `str(...)` on an optional integer: `None` prints as "None". -/
def optIntStr : Option Int → String
  | none => "None"
  | some n => toString n

/-- Round to the nearest integer, ties to the even neighbour (the rounding
of `format(..., '.0%')`, idealized over exact rationals). -/
def roundHalfEven (q : ℚ) : Int :=
  let f := ⌊q⌋
  if q - f < 1 / 2 then f
  else if 1 / 2 < q - f then f + 1
  else if f % 2 = 0 then f else f + 1

/-- Formatting with `.0%`: percentage with zero decimal places. -/
def pctStr (q : ℚ) : String := toString (roundHalfEven (q * 100)) ++ "%"

/-- An accuracy cell: the percentage string, or the literal "N/A" when the
accuracy is absent. -/
def formatAcc : Option ℚ → String
  | none => "N/A"
  | some q => pctStr q

/-- One row of the summary table of `generate_report`. -/
def summaryRow (name : String) (stats : ComparisonStat) : String :=
  "| " ++ name ++ " | " ++ formatAcc stats.code_off_accuracy ++ " | "
    ++ formatAcc stats.code_on_accuracy ++ " | " ++ toString stats.code_blocks_executed
    ++ " | " ++ toString stats.images_annotated ++ " |"

/-- The three status markers of the detailed section. -/
def statusIcon (status : String) : String :=
  if status = "success" then "✓" else if status = "skipped" then "⚠" else "✗"

/-- Python truthiness of the optional ground truth as tested by
`if r.get("ground_truth"):` in `generate_report`: `None` and `0` are both
falsy. -/
def gtTruthy : Option Int → Bool
  | none => false
  | some n => n != 0

/-- The response preview: first 200 characters, newlines replaced by
spaces. -/
def previewText (t : String) : String :=
  String.mk ((t.data.take 200).map (fun c => if c = '\n' then ' ' else c))

/-- The lines `generate_report` emits for one `QueryResult` of the detailed
section. -/
def resultLines (r : QueryResult) : List String :=
  ["**" ++ r.image ++ "** " ++ statusIcon r.status]
  ++ (if gtTruthy r.ground_truth then
        ["  - Ground truth: " ++ optIntStr r.ground_truth ++ ", Extracted: "
          ++ optIntStr (extract_number r.response_text) ++ " "
          ++ (if extract_number r.response_text = r.ground_truth then "✓" else "✗")]
      else [])
  ++ (if r.response_text ≠ "" then ["  - Response: " ++ previewText r.response_text ++ "..."] else [])
  ++ (if !r.code_executed.isEmpty then
        ["  - Code executed: " ++ toString r.code_executed.length ++ " blocks"] else [])
  ++ (if r.images_generated ≠ 0 then
        ["  - Annotated images generated: " ++ toString r.images_generated] else [])
  ++ [""]

/-- The detailed-section block for one `TestRun`. -/
def detailBlock (run : TestRun) : List String :=
  ("### " ++ run.test_name ++ " ("
      ++ (if run.code_execution then "Code Execution ON" else "Code Execution OFF") ++ ")\n")
    :: run.results.flatMap resultLines

/-- All lines of the report, in emission order.  The generation timestamp
(`datetime.now().strftime(...)` in the source) is passed in as a parameter;
it is used by the single header line and nowhere else. -/
def reportLines (timestamp : String) (results : List TestRun)
    (comparison : List (String × ComparisonStat)) : List String :=
  ["# Experiment Results: Gemini 3 Flash Agentic Vision",
   "\n**Generated**: " ++ timestamp,
   "\n## Summary\n",
   "| Test | Code OFF Accuracy | Code ON Accuracy | Code Blocks Used | Images Annotated |",
   "|------|-------------------|------------------|------------------|------------------|"]
  ++ comparison.map (fun e => summaryRow e.1 e.2)
  ++ ["\n## Detailed Results\n"]
  ++ results.flatMap detailBlock
  ++ ["\n## Key Findings\n",
      "*To be filled in after reviewing results*\n",
      "1. **[Most surprising result]**: ...\n",
      "2. **[Hypothesis confirmed/refuted]**: ...\n",
      "3. **[Unexpected behavior]**: ...\n"]

/-- The function `generate_report`: the joined report text. -/
def generate_report (timestamp : String) (results : List TestRun)
    (comparison : List (String × ComparisonStat)) : String :=
  String.intercalate "\n" (reportLines timestamp results comparison)

/-- The result list of the last record of `runs` whose name and mode both
match, or `dflt` when no record matches: the value a repeatedly-assigned
dict slot holds after the grouping loop. -/
def resolvedMode (dflt : List QueryResult) (name : String) (mode : Bool) :
    List TestRun → List QueryResult
  | [] => dflt
  | r :: rs =>
    resolvedMode (if r.test_name = name ∧ r.code_execution = mode then r.results else dflt)
      name mode rs

/-- Sample CODE_ON result: ground truth 5, extracted value 5. -/
def qrOn1 : QueryResult := ⟨"coins_5.jpg", "success", "5 coins", some 5, [], 0⟩

/-- Sample CODE_ON result: ground truth 8, extracted value 9. -/
def qrOn2 : QueryResult := ⟨"coins_8.jpg", "success", "9 coins", some 8, [], 0⟩

/-- Sample CODE_ON result: ground truth 3, extracted value 3. -/
def qrOn3 : QueryResult := ⟨"coins_3.jpg", "success", "3 coins", some 3, [], 0⟩

/-- Sample result carrying no ground truth. -/
def qrNoGt : QueryResult := ⟨"table_1.png", "success", "", none, [], 0⟩

/-- Sample result with a present, non-zero ground truth that the response
matches. -/
def qrGt7 : QueryResult := ⟨"coins_7.jpg", "success", "7 coins", some 7, [], 0⟩

/-- Sample result with a present ground truth of 0 (truthiness-falsy in the
report). -/
def qrGt0 : QueryResult := ⟨"coins_0.jpg", "success", "0 coins", some 0, [], 0⟩

/-- Sample input list with a duplicated (test, mode) record: the second
CODE_ON record for "alpha" must silently replace the first, and "beta" is
present in CODE_OFF mode only. -/
def runsDup : List TestRun :=
  [⟨"alpha", false, [qrNoGt]⟩,
   ⟨"alpha", true, [qrGt7]⟩,
   ⟨"alpha", true, [qrGt7, qrNoGt]⟩,
   ⟨"beta", false, [qrNoGt]⟩]

/-- The "alpha" entry `analyze_results` produces for `runsDup`. -/
def statAlpha : String × ComparisonStat := ("alpha", compareStats [qrGt7, qrNoGt] [qrNoGt])

section Lemmas

/-- First-match-wins characterization of the ordered fold: the fold yields
`some n` exactly when some pattern yields `some n` and every
earlier-declared pattern yields `none`. -/
theorem firstSome_eq_some_iff (l : List (List Char → Option Int)) (cs : List Char) (n : Int) :
    firstSome l cs = some n ↔
      ∃ k, k < l.length ∧ l.getD k defaultPat cs = some n ∧
        ∀ j, j < k → l.getD j defaultPat cs = none := by
  induction l with
  | nil => simp [firstSome]
  | cons f fs ih =>
    cases hf : f cs with
    | some m =>
      simp only [firstSome, hf]
      constructor
      · intro h
        refine ⟨0, Nat.succ_pos _, ?_, ?_⟩
        · simpa [List.getD_cons_zero, hf] using h
        · intro j hj; omega
      · rintro ⟨k, hk, h1, h2⟩
        cases k with
        | zero => simpa [List.getD_cons_zero, hf] using h1
        | succ j =>
          have := h2 0 (Nat.succ_pos j)
          rw [List.getD_cons_zero, hf] at this
          exact absurd this (by simp)
    | none =>
      simp only [firstSome, hf]
      rw [ih]
      constructor
      · rintro ⟨k, hk, h1, h2⟩
        refine ⟨k + 1, Nat.succ_lt_succ hk, by simpa [List.getD_cons_succ] using h1, ?_⟩
        intro j hj
        cases j with
        | zero => simpa [List.getD_cons_zero] using hf
        | succ i => simpa [List.getD_cons_succ] using h2 i (Nat.lt_of_succ_lt_succ hj)
      · rintro ⟨k, hk, h1, h2⟩
        cases k with
        | zero => rw [List.getD_cons_zero, hf] at h1; exact absurd h1 (by simp)
        | succ i =>
          refine ⟨i, Nat.lt_of_succ_lt_succ hk, by simpa [List.getD_cons_succ] using h1, ?_⟩
          intro j hj
          simpa [List.getD_cons_succ] using h2 (j + 1) (Nat.succ_lt_succ hj)

/-- The ordered fold yields `none` exactly when every pattern yields
`none`. -/
theorem firstSome_eq_none_iff (l : List (List Char → Option Int)) (cs : List Char) :
    firstSome l cs = none ↔ ∀ k, k < l.length → l.getD k defaultPat cs = none := by
  induction l with
  | nil => simp [firstSome]
  | cons f fs ih =>
    cases hf : f cs with
    | some m =>
      simp only [firstSome, hf]
      constructor
      · intro h; exact absurd h (by simp)
      · intro h
        have := h 0 (Nat.succ_pos _)
        rw [List.getD_cons_zero, hf] at this
        exact absurd this (by simp)
    | none =>
      simp only [firstSome, hf]
      rw [ih]
      constructor
      · intro h k hk
        cases k with
        | zero => simpa [List.getD_cons_zero] using hf
        | succ i => simpa [List.getD_cons_succ] using h i (Nat.lt_of_succ_lt_succ hk)
      · intro h k hk
        simpa [List.getD_cons_succ] using h (k + 1) (Nat.succ_lt_succ hk)

end Lemmas

/-- C2 (corrected): extraction applies the fixed, ordered, case-insensitive
pattern list to the lower-cased text and returns the integer captured by
the first pattern, in declaration order, that matches anywhere; in
particular the text "3 coins, total: 9" extracts 3 because the coins
pattern precedes the total pattern.  (The original universally-quantified
example — ANY text containing both "3 coins" and "total: 9" extracts 3 —
is refuted by `c2_counterexample`.) -/
theorem c2_extraction_order :
    (∀ (t : String) (n : Int),
      extract_number t = some n ↔
        ∃ k, k < patterns.length ∧ patterns.getD k defaultPat (lowerStr t) = some n ∧
          ∀ j, j < k → patterns.getD j defaultPat (lowerStr t) = none) ∧
    extract_number "3 coins, total: 9" = some 3 :=
  ⟨fun t n => firstSome_eq_some_iff patterns (lowerStr t) n, by decide⟩

/-- C2 counterexample: a text containing both "3 coins" and "total: 9" for
which extraction does not return 3 — an earlier-declared pattern (fingers)
matches first. -/
theorem c2_counterexample :
    ("3 coins".data <:+: "2 fingers and 3 coins, total: 9".data) ∧
    ("total: 9".data <:+: "2 fingers and 3 coins, total: 9".data) ∧
    extract_number "2 fingers and 3 coins, total: 9" = some 2 ∧
    extract_number "2 fingers and 3 coins, total: 9" ≠ some 3 := by decide

/-- C2 witness: the characterization instantiated at "3 coins, total: 9". -/
theorem c2_witness :
    ∃ k, k < patterns.length ∧
      patterns.getD k defaultPat (lowerStr "3 coins, total: 9") = some 3 ∧
      ∀ j, j < k → patterns.getD j defaultPat (lowerStr "3 coins, total: 9") = none :=
  (c2_extraction_order.1 "3 coins, total: 9" 3).mp c2_extraction_order.2

/-- C6 (corrected): when the fingers pattern (a digit run, optional
whitespace, then "finger") matches anywhere in the lower-cased text,
extraction returns the number captured at its leftmost match — the fingers
pattern is the highest-priority pattern; in particular
"I see 5 fingers total" extracts 5.  (The original claim — extraction
returns N for EVERY contained phrase "N fingers" — is refuted by
`c6_counterexample`.) -/
theorem c6_fingers_first :
    (∀ (t : String) (n : Int),
      searchLeft (matchNumWordAt "finger".data) (lowerStr t) = some n →
        extract_number t = some n) ∧
    extract_number "I see 5 fingers total" = some 5 := by
  refine ⟨fun t n h => ?_, by decide⟩
  simp only [extract_number, patterns, firstSome, h]

/-- C6 counterexample: "1 fingers 2 fingers" contains the phrase
"2 fingers" yet extraction returns 1, the leftmost match, not 2. -/
theorem c6_counterexample :
    ("2 fingers".data <:+: "1 fingers 2 fingers".data) ∧
    extract_number "1 fingers 2 fingers" = some 1 ∧
    extract_number "1 fingers 2 fingers" ≠ some 2 := by decide

/-- C6 witness: the amended claim applied at "I see 5 fingers total". -/
theorem c6_witness : extract_number "I see 5 fingers total" = some 5 :=
  c6_fingers_first.1 "I see 5 fingers total" 5 (by decide)

/-- C9 (confirmed): extraction is a total function into an option type —
it returns the explicit absent value `none` exactly when none of the nine
patterns matches, and in particular on "I cannot tell" (a text with no
numeral). -/
theorem c9_total_no_match :
    (∀ t : String,
      extract_number t = none ↔
        ∀ k, k < patterns.length → patterns.getD k defaultPat (lowerStr t) = none) ∧
    extract_number "I cannot tell" = none :=
  ⟨fun t => firstSome_eq_none_iff patterns (lowerStr t), by decide⟩

/-- C9 witness: the characterization applied at a concrete numeral-free
text. -/
theorem c9_witness : extract_number "no numerals appear in this text" = none :=
  (c9_total_no_match.1 "no numerals appear in this text").mpr (by decide)

/-- The single pass of the accuracy loop equals three independent counts
over the zipped pairs: pairs whose CODE_ON member carries a ground truth,
and among those the ON / OFF extraction hits. -/
theorem gtLoop_eq_countP (l : List (QueryResult × QueryResult)) (tot onc offc : Nat) :
    gtLoop l (tot, onc, offc) =
      (tot + l.countP (fun p => p.1.ground_truth.isSome),
       onc + l.countP (fun p =>
         p.1.ground_truth.isSome && decide (extract_number p.1.response_text = p.1.ground_truth)),
       offc + l.countP (fun p =>
         p.1.ground_truth.isSome && decide (extract_number p.2.response_text = p.1.ground_truth))) := by
  induction l generalizing tot onc offc with
  | nil => simp [gtLoop]
  | cons p ps ih =>
    cases hg : p.1.ground_truth with
    | none =>
      simp only [gtLoop, hg, ih, List.countP_cons, hg]
      simp [hg]
    | some g =>
      simp only [gtLoop, hg, ih, List.countP_cons]
      by_cases hon : extract_number p.1.response_text = some g
        <;> by_cases hoff : extract_number p.2.response_text = some g
        <;> simp [hg, hon, hoff, Prod.ext_iff]
        <;> omega

/-- The accuracy counters of one test, as counts over the zipped pairs. -/
theorem accTriple_eq (code_on code_off : List QueryResult) :
    accTriple code_on code_off =
      ((code_on.zip code_off).countP (fun p => p.1.ground_truth.isSome),
       (code_on.zip code_off).countP (fun p =>
         p.1.ground_truth.isSome && decide (extract_number p.1.response_text = p.1.ground_truth)),
       (code_on.zip code_off).countP (fun p =>
         p.1.ground_truth.isSome && decide (extract_number p.2.response_text = p.1.ground_truth))) := by
  simpa using gtLoop_eq_countP (code_on.zip code_off) 0 0 0

/-- Zipping truncates at the shorter list. -/
theorem zip_take_min {α β : Type} :
    ∀ (l1 : List α) (l2 : List β),
      l1.zip l2 = (l1.take (min l1.length l2.length)).zip (l2.take (min l1.length l2.length))
  | [], _ => by simp
  | _ :: _, [] => by simp
  | a :: l1, b :: l2 => by
    simp only [List.zip_cons_cons, List.length_cons, Nat.succ_min_succ, List.take_succ_cons]
    rw [← zip_take_min l1 l2]

/-- C1 (confirmed): over the zipped CODE_ON/CODE_OFF pairs, a pair counts
toward the shared denominator exactly when its CODE_ON member carries a
non-absent ground truth (ground truth is read from the CODE_ON member
only), and a mode's numerator counts exactly the pairs where that mode's
extracted integer equals that ground truth by exact equality; in
particular a CODE_ON sequence with ground truths [5, 8, 3] and extracted
values [5, 9, 3] paired with any CODE_OFF sequence of length 3 yields
`code_on_accuracy` = 2/3. -/
theorem c1_accuracy_counts :
    (∀ code_on code_off : List QueryResult,
      accTriple code_on code_off =
        ((code_on.zip code_off).countP (fun p => p.1.ground_truth.isSome),
         (code_on.zip code_off).countP (fun p =>
           p.1.ground_truth.isSome &&
             decide (extract_number p.1.response_text = p.1.ground_truth)),
         (code_on.zip code_off).countP (fun p =>
           p.1.ground_truth.isSome &&
             decide (extract_number p.2.response_text = p.1.ground_truth)))) ∧
    (∀ (a b c : QueryResult) (off : List QueryResult),
      a.ground_truth = some 5 → extract_number a.response_text = some 5 →
      b.ground_truth = some 8 → extract_number b.response_text = some 9 →
      c.ground_truth = some 3 → extract_number c.response_text = some 3 →
      off.length = 3 →
      (compareStats [a, b, c] off).code_on_accuracy = some ((2 : ℚ) / 3)) := by
  refine ⟨accTriple_eq, ?_⟩
  intro a b c off ha hea hb heb hc hec hlen
  obtain ⟨x, y, z, rfl⟩ := List.length_eq_three.mp hlen
  simp only [compareStats, accTriple_eq]
  simp [List.countP_cons, ha, hea, hb, heb, hc, hec]

/-- C1 witness: the example instantiated with concrete results whose
response texts extract to 5, 9 and 3. -/
theorem c1_witness :
    (compareStats [qrOn1, qrOn2, qrOn3] [qrNoGt, qrNoGt, qrNoGt]).code_on_accuracy
      = some ((2 : ℚ) / 3) :=
  c1_accuracy_counts.2 qrOn1 qrOn2 qrOn3 [qrNoGt, qrNoGt, qrNoGt]
    rfl (by decide) rfl (by decide) rfl (by decide) rfl

/-- C3 (confirmed): when no zipped pair carries a ground truth, both
accuracies are the absent value (not zero), `has_ground_truth` is false,
and the summary row renders both accuracy cells as the literal "N/A". -/
theorem c3_no_ground_truth :
    ∀ (code_on code_off : List QueryResult) (name : String),
      (∀ p ∈ code_on.zip code_off, p.1.ground_truth = none) →
      (compareStats code_on code_off).code_on_accuracy = none ∧
      (compareStats code_on code_off).code_off_accuracy = none ∧
      (compareStats code_on code_off).has_ground_truth = false ∧
      summaryRow name (compareStats code_on code_off) =
        "| " ++ name ++ " | " ++ "N/A" ++ " | " ++ "N/A" ++ " | "
          ++ toString (compareStats code_on code_off).code_blocks_executed ++ " | "
          ++ toString (compareStats code_on code_off).images_annotated ++ " |" := by
  intro code_on code_off name h
  have h0 : (accTriple code_on code_off).1 = 0 := by
    rw [accTriple_eq]
    exact List.countP_eq_zero.mpr (fun p hp => by simp [h p hp])
  refine ⟨?_, ?_, ?_, ?_⟩
  · simp [compareStats, h0]
  · simp [compareStats, h0]
  · simp [compareStats, h0]
  · simp [summaryRow, compareStats, h0, formatAcc]

/-- C3 witness: a test whose single pair has no ground truth. -/
theorem c3_witness :
    (compareStats [qrNoGt] [qrNoGt]).code_on_accuracy = none ∧
    (compareStats [qrNoGt] [qrNoGt]).code_off_accuracy = none ∧
    (compareStats [qrNoGt] [qrNoGt]).has_ground_truth = false ∧
    summaryRow "table_extraction" (compareStats [qrNoGt] [qrNoGt]) =
      "| " ++ "table_extraction" ++ " | " ++ "N/A" ++ " | " ++ "N/A" ++ " | "
        ++ toString (compareStats [qrNoGt] [qrNoGt]).code_blocks_executed ++ " | "
        ++ toString (compareStats [qrNoGt] [qrNoGt]).images_annotated ++ " |" :=
  c3_no_ground_truth [qrNoGt] [qrNoGt] "table_extraction" (by decide)

/-- C4 (confirmed): the accuracy counters are computed over the zipped
pairs only, so sequences of unequal length are paired up to the shorter
length and no further — truncating both inputs at the shorter length
leaves the counters unchanged; in particular, with lengths 4 and 3 only
the first 3 pairs are considered.  Everything is a total function, so no
error can be raised. -/
theorem c4_unequal_lengths :
    (∀ code_on code_off : List QueryResult,
      accTriple code_on code_off =
        accTriple (code_on.take (min code_on.length code_off.length))
          (code_off.take (min code_on.length code_off.length))) ∧
    (∀ a b c d x y z : QueryResult,
      accTriple [a, b, c, d] [x, y, z] = accTriple [a, b, c] [x, y, z]) := by
  constructor
  · intro code_on code_off
    simp only [accTriple]
    exact congrArg (fun l => gtLoop l (0, 0, 0)) (zip_take_min code_on code_off)
  · intro a b c d x y z
    rfl

/-- C5 (confirmed): report rendering is a pure function of its inputs; the
timestamp influences exactly one line, the second line of the document
header, and every line from the third onward is independent of it (in
particular the whole per-result detailed section). -/
theorem c5_report_deterministic :
    ∀ (ts1 ts2 : String) (results : List TestRun)
      (comparison : List (String × ComparisonStat)),
      (reportLines ts1 results comparison).drop 2 = (reportLines ts2 results comparison).drop 2 ∧
      (reportLines ts1 results comparison).take 2 =
        ["# Experiment Results: Gemini 3 Flash Agentic Vision", "\n**Generated**: " ++ ts1] ∧
      generate_report ts1 results comparison =
        String.intercalate "\n" (reportLines ts1 results comparison) :=
  fun _ _ _ _ => ⟨rfl, rfl, rfl⟩

/-- A `takeWhile` over an append consumes exactly an all-satisfying list when one failing
element is appended. -/
theorem takeWhile_append_of_all {p : Char → Bool} :
    ∀ (u : List Char) (c : Char), (∀ x ∈ u, p x = true) → p c = false →
      (u ++ [c]).takeWhile p = u
  | [], c, _, hc => by simp [List.takeWhile_cons, hc]
  | a :: u, c, hall, hc => by
    have ha : p a = true := hall a (List.mem_cons_self a u)
    simp only [List.cons_append, List.takeWhile_cons, ha, if_true]
    rw [takeWhile_append_of_all u c (fun x hx => hall x (List.mem_cons_of_mem a hx)) hc]

/-- C7 (corrected): the lowest-priority pattern `^(\d+)$` matches exactly
when the whole text is a number, or a number followed by one trailing
newline — Python's `$` also matches just before a final newline, so a
trailing newline is tolerated, refuting the "no surrounding characters"
reading (see `c7_counterexample`). -/
theorem c7_anchored_pattern :
    ∀ (t : List Char) (n : Int),
      matchAnchored t = some n ↔
        ((t ≠ [] ∧ t.all isDigitChar = true ∧ n = parseDigits t) ∨
         ∃ u, t = u ++ ['\n'] ∧ u ≠ [] ∧ u.all isDigitChar = true ∧ n = parseDigits u) := by
  intro t n
  constructor
  · intro h
    by_cases h1 : (t.takeWhile isDigitChar).isEmpty
    · simp [matchAnchored, h1] at h
    · by_cases h2 : (t.takeWhile isDigitChar).length = t.length
      · have heq : t.takeWhile isDigitChar = t := (List.takeWhile_prefix _).eq_of_length h2
        left
        refine ⟨?_, ?_, ?_⟩
        · intro hnil
          rw [hnil] at h1
          simp at h1
        · rw [List.all_eq_true]
          intro x hx
          exact List.mem_takeWhile_imp (heq ▸ hx)
        · have hs : some (parseDigits (t.takeWhile isDigitChar)) = some n := by
            simpa [matchAnchored, h1, h2] using h
          rw [heq] at hs
          exact (Option.some_inj.mp hs).symm
      · by_cases h3 : (t.takeWhile isDigitChar).length + 1 = t.length ∧ t.getLast? = some '\n'
        · right
          have hsplit := List.takeWhile_append_dropWhile isDigitChar t
          have hlen : (t.dropWhile isDigitChar).length = 1 := by
            have hl := congrArg List.length hsplit
            simp only [List.length_append] at hl
            omega
          obtain ⟨c, hc⟩ := List.length_eq_one.mp hlen
          have ht : t = t.takeWhile isDigitChar ++ [c] := by rw [← hc, hsplit]
          have hcn : c = '\n' := by
            have hgl := h3.2
            rw [ht, List.getLast?_concat] at hgl
            exact Option.some_inj.mp hgl
          refine ⟨t.takeWhile isDigitChar, by rw [← hcn]; exact ht, ?_, ?_, ?_⟩
          · intro hnil
            rw [hnil] at h1
            simp at h1
          · rw [List.all_eq_true]
            intro x hx
            exact List.mem_takeWhile_imp hx
          · have hs : some (parseDigits (t.takeWhile isDigitChar)) = some n := by
              simpa [matchAnchored, h1, h2, h3] using h
            exact (Option.some_inj.mp hs).symm
        · exfalso
          simp [matchAnchored, h1, h2, h3] at h
  · rintro (⟨hne, hall, rfl⟩ | ⟨u, rfl, hune, huall, rfl⟩)
    · have heq : t.takeWhile isDigitChar = t :=
        List.takeWhile_eq_self_iff.mpr (List.all_eq_true.mp hall)
      have h1 : (t.takeWhile isDigitChar).isEmpty = false := by
        rw [heq]
        cases t with
        | nil => exact absurd rfl hne
        | cons a l => rfl
      simp [matchAnchored, h1, heq]
      exact hne
    · have heq : ((u ++ ['\n']).takeWhile isDigitChar) = u :=
        takeWhile_append_of_all u '\n' (List.all_eq_true.mp huall) (by decide)
      have h1 : ((u ++ ['\n']).takeWhile isDigitChar).isEmpty = false := by
        rw [heq]
        cases u with
        | nil => exact absurd rfl hune
        | cons a l => rfl
      have h2 : ¬((u ++ ['\n']).takeWhile isDigitChar).length = (u ++ ['\n']).length := by
        rw [heq]
        simp
      simp [matchAnchored, h1, heq, h2, List.getLast?_concat]
      exact hune

/-- C7 counterexample: "5\n" is a number plus a surrounding character, yet
pattern 9 matches it (and extraction returns 5 through it). -/
theorem c7_counterexample :
    matchAnchored ("5\n".data) = some 5 ∧ ("5\n".data).all isDigitChar = false ∧
    extract_number "5\n" = some 5 := by decide

/-- C7 witness: the characterization applied to the all-digit text "73". -/
theorem c7_witness : matchAnchored ("73".data) = some 73 :=
  (c7_anchored_pattern ("73".data) 73).mpr (Or.inl (by decide))

/-- C8 (corrected): the detailed section shows the ground-truth-versus-
extracted line, with a match marker exactly when the extracted value
equals the ground truth, for every result whose ground truth is present
AND non-zero.  The source guards the line with Python truthiness
(`if r.get("ground_truth"):`), so a present ground truth of 0 is rendered
without the line (see `c8_counterexample`). -/
theorem c8_gt_line :
    ∀ (r : QueryResult) (g : Int), r.ground_truth = some g → g ≠ 0 →
      ("  - Ground truth: " ++ toString g ++ ", Extracted: "
        ++ optIntStr (extract_number r.response_text) ++ " "
        ++ (if extract_number r.response_text = some g then "✓" else "✗"))
        ∈ resultLines r := by
  intro r g hg hne
  have htr2 : gtTruthy (some g) = true := by simpa [gtTruthy] using hne
  have htr : gtTruthy r.ground_truth = true := by rw [hg]; exact htr2
  simp [resultLines, htr, htr2, hg, optIntStr, List.mem_append]

/-- C8 counterexample: a result with present ground truth 0 — the claimed
ground-truth line is absent from its rendered entry, which consists of the
header, response preview and blank line only. -/
theorem c8_counterexample :
    qrGt0.ground_truth = some 0 ∧
    ("  - Ground truth: " ++ toString (0 : Int) ++ ", Extracted: "
      ++ optIntStr (extract_number qrGt0.response_text) ++ " "
      ++ (if extract_number qrGt0.response_text = some 0 then "✓" else "✗"))
      ∉ resultLines qrGt0 ∧
    resultLines qrGt0 = ["**coins_0.jpg** ✓", "  - Response: 0 coins...", ""] := by decide

/-- C8 witness: the amended claim applied to a result with ground truth 7
and response "7 coins". -/
theorem c8_witness :
    ("  - Ground truth: " ++ toString (7 : Int) ++ ", Extracted: "
      ++ optIntStr (extract_number qrGt7.response_text) ++ " "
      ++ (if extract_number qrGt7.response_text = some 7 then "✓" else "✗"))
      ∈ resultLines qrGt7 :=
  c8_gt_line qrGt7 7 rfl (by decide)

/-- Effect of one grouping step on a name lookup: inserting a record
creates or updates exactly the entry of its own test name, writing its
result list into that entry's mode slot. -/
theorem find?_insertRun (acc : List (String × (List QueryResult × List QueryResult)))
    (r : TestRun) (name : String) :
    (insertRun acc r).find? (fun e => e.1 == name) =
      if name = r.test_name then
        some (r.test_name,
          setMode (((acc.find? (fun e => e.1 == r.test_name)).map Prod.snd).getD ([], []))
            r.code_execution r.results)
      else acc.find? (fun e => e.1 == name) := by
  unfold insertRun
  by_cases hmem : acc.any (fun e => e.1 == r.test_name)
  · simp only [hmem, if_true]
    rw [List.find?_map]
    have hcomp : ((fun (e : String × (List QueryResult × List QueryResult)) => e.1 == name) ∘
        (fun e => if e.1 == r.test_name then (e.1, setMode e.2 r.code_execution r.results) else e))
        = (fun e => e.1 == name) := by
      funext e
      by_cases h : e.1 = r.test_name <;> simp [h]
    rw [hcomp]
    by_cases hn : name = r.test_name
    · subst hn
      have hex : ∃ x ∈ acc, (x.1 == r.test_name) = true := List.any_eq_true.mp hmem
      have hs : (acc.find? (fun e => e.1 == r.test_name)).isSome := List.find?_isSome.mpr hex
      obtain ⟨e₀, he₀⟩ := Option.isSome_iff_exists.mp hs
      rw [he₀]
      have hbeq := List.find?_some he₀
      have he1 : e₀.1 = r.test_name := by simpa using hbeq
      simp [hbeq, he1]
    · rw [if_neg hn]
      cases hf : acc.find? (fun e => e.1 == name) with
      | none => simp
      | some e₀ =>
        have hbeq := List.find?_some hf
        have he1 : e₀.1 = name := by simpa using hbeq
        have hne : (e₀.1 == r.test_name) = false := by
          simp [he1]
          exact hn
        simp [hne]
        intro hcontra
        exact absurd (he1 ▸ hcontra) hn
  · simp only [Bool.not_eq_true] at hmem
    simp only [hmem, Bool.false_eq_true, if_false]
    rw [List.find?_append]
    have hnone : acc.find? (fun e => e.1 == r.test_name) = none := by
      rw [List.find?_eq_none]
      intro x hx hx2
      have : acc.any (fun e => e.1 == r.test_name) = true :=
        List.any_eq_true.mpr ⟨x, hx, hx2⟩
      rw [hmem] at this
      exact absurd this (by simp)
    by_cases hn : name = r.test_name
    · subst hn
      rw [hnone]
      simp [List.find?_cons]
    · rw [if_neg hn]
      have hne2 : (r.test_name == name) = false := by
        simp
        exact fun h => hn h.symm
      have hns : name = r.test_name ↔ False := by
        constructor
        · exact hn
        · intro h
          exact h.elim
      simp [List.find?_cons, hne2, Option.or_none]

/-- Looking up a name after the whole grouping fold: starting from any
accumulator, the entry's mode slots hold the results of the LAST record of
the processed list matching that name and mode, falling back to the
accumulator's slots (and an entry exists exactly when the accumulator or
some record carries the name). -/
theorem find?_groupAux :
    ∀ (runs : List TestRun) (acc : List (String × (List QueryResult × List QueryResult)))
      (name : String),
      ((runs.foldl insertRun acc).find? (fun e => e.1 == name)) =
        match acc.find? (fun e => e.1 == name) with
        | some e => some (e.1, resolvedMode e.2.1 name true runs, resolvedMode e.2.2 name false runs)
        | none =>
          if runs.any (fun r => r.test_name == name) then
            some (name, resolvedMode [] name true runs, resolvedMode [] name false runs)
          else none := by
  intro runs
  induction runs with
  | nil =>
    intro acc name
    cases hf : acc.find? (fun e => e.1 == name) with
    | none => simp [List.foldl_nil, hf]
    | some e => simp [List.foldl_nil, hf, resolvedMode]
  | cons r rs ih =>
    intro acc name
    rw [List.foldl_cons, ih (insertRun acc r) name, find?_insertRun acc r name]
    by_cases hn : name = r.test_name
    · subst hn
      rw [if_pos rfl]
      cases hf : acc.find? (fun e => e.1 == r.test_name) with
      | none =>
        cases hmode : r.code_execution <;>
          simp [List.any_cons, resolvedMode, setMode, hmode]
      | some e₀ =>
        have he1 : e₀.1 = r.test_name := by simpa using List.find?_some hf
        cases hmode : r.code_execution <;>
          simp [resolvedMode, setMode, hmode, he1]
    · rw [if_neg hn]
      have hne : (r.test_name == name) = false := by
        simp
        exact fun h => hn h.symm
      cases hf : acc.find? (fun e => e.1 == name) with
      | none =>
        have h1 : (if r.test_name = name ∧ r.code_execution = true then r.results
            else ([] : List QueryResult)) = [] := by
          rw [if_neg]
          intro h
          exact hn h.1.symm
        have h2 : (if r.test_name = name ∧ r.code_execution = false then r.results
            else ([] : List QueryResult)) = [] := by
          rw [if_neg]
          intro h
          exact hn h.1.symm
        simp [List.any_cons, hne, resolvedMode, h1, h2]
      | some e₀ =>
        simp only [resolvedMode]
        have h1 : (if r.test_name = name ∧ r.code_execution = true then r.results else e₀.2.1)
            = e₀.2.1 := by
          rw [if_neg]
          intro h
          exact hn h.1.symm
        have h2 : (if r.test_name = name ∧ r.code_execution = false then r.results else e₀.2.2)
            = e₀.2.2 := by
          rw [if_neg]
          intro h
          exact hn h.1.symm
        rw [h1, h2]

/-- A grouping step leaves the key list unchanged when the name exists and
appends the new name otherwise. -/
theorem keys_insertRun (acc : List (String × (List QueryResult × List QueryResult)))
    (r : TestRun) :
    (insertRun acc r).map Prod.fst =
      if acc.any (fun e => e.1 == r.test_name) then acc.map Prod.fst
      else acc.map Prod.fst ++ [r.test_name] := by
  unfold insertRun
  by_cases h : acc.any (fun e => e.1 == r.test_name)
  · simp only [h, if_true, List.map_map]
    apply List.map_congr_left
    intro e he
    by_cases h2 : e.1 = r.test_name <;> simp [h2]
  · simp only [Bool.not_eq_true] at h
    simp [h]

/-- The grouping fold keeps keys pairwise distinct. -/
theorem keys_nodup :
    ∀ (runs : List TestRun) (acc : List (String × (List QueryResult × List QueryResult))),
      (acc.map Prod.fst).Nodup → ((runs.foldl insertRun acc).map Prod.fst).Nodup
  | [], _, h => by simpa using h
  | r :: rs, acc, h => by
    rw [List.foldl_cons]
    apply keys_nodup rs
    rw [keys_insertRun]
    by_cases hmem : acc.any (fun e => e.1 == r.test_name)
    · simpa [hmem] using h
    · simp only [Bool.not_eq_true] at hmem
      simp only [hmem, Bool.false_eq_true, if_false]
      rw [List.nodup_append]
      refine ⟨h, List.nodup_singleton _, ?_⟩
      intro x hx hx2
      rw [List.mem_singleton] at hx2
      subst hx2
      obtain ⟨e, he, he2⟩ := List.mem_map.mp hx
      have hco : acc.any (fun e => e.1 == r.test_name) = true :=
        List.any_eq_true.mpr ⟨e, he, by simp [he2]⟩
      rw [hmem] at hco
      exact absurd hco (by simp)

/-- In a list with pairwise-distinct keys, looking up the key of a member
finds that member. -/
theorem find?_of_mem_nodup {β : Type} :
    ∀ (l : List (String × β)) (e : String × β),
      (l.map Prod.fst).Nodup → e ∈ l → l.find? (fun x => x.1 == e.1) = some e
  | [], e, _, he => absurd he (List.not_mem_nil e)
  | a :: t, e, hnd, he => by
    rw [List.map_cons, List.nodup_cons] at hnd
    rcases List.mem_cons.mp he with rfl | ht
    · simp [List.find?_cons]
    · have hne : (a.1 == e.1) = false := by
        simp only [beq_eq_false_iff_ne, ne_eq]
        intro hcontra
        exact hnd.1 (hcontra ▸ List.mem_map.mpr ⟨e, ht, rfl⟩)
      rw [List.find?_cons, hne]
      exact find?_of_mem_nodup t e hnd.2 ht

/-- C10 (confirmed): the grouping dict holds, for each test name and mode,
the result list of the LAST input record with that name and mode — later
records silently replace earlier ones — and every test present in the
input yields one ComparisonStat whose `total_images` is the length of its
resolved CODE_ON sequence (the empty list, hence 0, when no CODE_ON record
exists for the test). -/
theorem c10_last_record_wins :
    (∀ (runs : List TestRun) (name : String),
      (groupByTest runs).find? (fun e => e.1 == name) =
        if runs.any (fun r => r.test_name == name) then
          some (name, resolvedMode [] name true runs, resolvedMode [] name false runs)
        else none) ∧
    (∀ (runs : List TestRun), ∀ p ∈ analyze_results runs,
      p.2.total_images = (resolvedMode [] p.1 true runs).length) := by
  have hmain : ∀ (runs : List TestRun) (name : String),
      (groupByTest runs).find? (fun e => e.1 == name) =
        if runs.any (fun r => r.test_name == name) then
          some (name, resolvedMode [] name true runs, resolvedMode [] name false runs)
        else none := by
    intro runs name
    have h := find?_groupAux runs [] name
    simpa [groupByTest, List.find?_nil] using h
  refine ⟨hmain, ?_⟩
  intro runs p hp
  simp only [analyze_results] at hp
  obtain ⟨e, he, hpe⟩ := List.mem_map.mp hp
  have hnd : ((groupByTest runs).map Prod.fst).Nodup := keys_nodup runs [] (by simp)
  have hfind := find?_of_mem_nodup (groupByTest runs) e hnd he
  have h2 := hfind.symm.trans (hmain runs e.1)
  by_cases hany : runs.any (fun r => r.test_name == e.1)
  · rw [if_pos hany] at h2
    have he2 : e.2.1 = resolvedMode [] e.1 true runs :=
      congrArg (fun x => x.2.1) (Option.some_inj.mp h2)
    subst hpe
    calc (compareStats e.2.1 e.2.2).total_images = e.2.1.length := rfl
      _ = (resolvedMode [] e.1 true runs).length := by rw [he2]
  · rw [if_neg hany] at h2
    exact absurd h2 (by simp)

/-- C10 witness: with a duplicated ("alpha", CODE_ON) record, the "alpha"
stat counts the LAST record's two results, not the first record's one. -/
theorem c10_witness :
    statAlpha.2.total_images = (resolvedMode [] statAlpha.1 true runsDup).length :=
  c10_last_record_wins.2 runsDup statAlpha
    (List.mem_map.mpr ⟨("alpha", ([qrGt7, qrNoGt], [qrNoGt])), by decide, rfl⟩)
